import Mathlib

set_option autoImplicit false

/-!
Verification of the pg-embed acquisition-and-lifecycle subsystem.

Shallow embedding of `src/pg_access.rs`, `src/pg_unpack.rs` and
`src/pg_enums.rs`.  Filesystem paths are lists of components, file
contents are modelled symbolically (raw bytes, zip container, xz
stream, tar archive), and every fallible OS primitive (`File::open`,
`File::create`, `Write::write`, `std::io::copy`, `remove_file`,
`remove_dir_all`, tar extraction, the network fetch) is resolved by an
oracle in a `World` record, so a single run of an embedded function is
deterministic while theorems quantify over all possible outcomes of
the primitives.  Each embedded function also emits a trace of events
(lock acquire/release, status-map writes, fetch, filesystem
mutations) mirroring the order of the corresponding Rust statements,
so ordering claims become statements about the trace.
-/

namespace PgEmbed

/-- A filesystem path, as a list of components. -/
abbrev Path := List String

/-- Raw byte strings (bytes as naturals). -/
abbrev Bytes := List Nat

/-- `PgAcquisitionStatus` from `pg_enums.rs`. -/
inductive PgAcquisitionStatus where
  | InProgress
  | Finished
  | Undefined
deriving DecidableEq, Repr

/-- `PgServerStatus` from `pg_enums.rs`. -/
inductive PgServerStatus where
  | Uninitialized
  | Initializing
  | Initialized
  | Starting
  | Started
  | Stopping
  | Stopped
  | Failure
deriving DecidableEq, Repr

/-- `PgProcessType` from `pg_enums.rs`. -/
inductive PgProcessType where
  | InitDb
  | StartDb
  | StopDb
deriving DecidableEq, Repr

/-- `PgEmbedError` from `pg_errors.rs`; the payloads of the underlying
OS/zip/network errors are dropped, the offending paths are kept. -/
inductive PgEmbedError where
  | NoSystemCacheDirectory
  | InvalidPgPackage
  | WriteFileError (path : Path)
  | UnzipFileError (path : Path)
  | ReadFileError (path : Path)
  | DirCreationError (dir : Path)
  | UnpackFailure
  | PgStartFailure
  | PgStopFailure
  | PgInitFailure
  | PgCleanUpFailure (path : Path)
  | DownloadFailure
  | PgError
deriving DecidableEq, Repr

/-- `ProcessStatus::status_entry` for `PgProcessType` (`pg_enums.rs`). -/
def status_entry : PgProcessType → PgServerStatus
  | .InitDb => .Initializing
  | .StartDb => .Starting
  | .StopDb => .Stopping

/-- `ProcessStatus::status_exit` for `PgProcessType` (`pg_enums.rs`). -/
def status_exit : PgProcessType → PgServerStatus
  | .InitDb => .Initialized
  | .StartDb => .Started
  | .StopDb => .Stopped

/-- `ProcessStatus::error_type` for `PgProcessType` (`pg_enums.rs`). -/
def error_type : PgProcessType → PgEmbedError
  | .InitDb => .PgInitFailure
  | .StartDb => .PgStartFailure
  | .StopDb => .PgStopFailure

/-- Association-list lookup keyed by path (first match wins, as in a map). -/
def lookupA {α : Type} : Path → List (Path × α) → Option α
  | _, [] => none
  | p, e :: es => if e.1 = p then some e.2 else lookupA p es

/-- Remove every entry with the given key. -/
def eraseA {α : Type} : Path → List (Path × α) → List (Path × α)
  | _, [] => []
  | p, e :: es => if e.1 = p then eraseA p es else e :: eraseA p es

/-- Boolean path membership. -/
def memPath : Path → List Path → Bool
  | _, [] => false
  | p, d :: ds => if d = p then true else memPath p ds

/-- `isUnder d p` holds when `d` is a prefix of `p` (so `p` lives under
directory `d`; every path is under itself). -/
def isUnder : Path → Path → Bool
  | [], _ => true
  | _ :: _, [] => false
  | d :: ds, p :: ps => if d = p then isUnder ds ps else false

/-- The filesystem: files with their byte contents, plus the set of
directories.  Archive structure is not part of a file; the zip/xz/tar
decoders (external crates) are oracles of the `World` interpreting the
bytes. -/
structure FS where
  files : List (Path × Bytes)
  dirs : List Path
deriving DecidableEq, Repr

/-- Content of the file at `p`, when present. -/
def FS.lookupFile (fs : FS) (p : Path) : Option Bytes := lookupA p fs.files

/-- Create/truncate-and-write the file at `p` (replaces any previous entry). -/
def FS.writeFile (fs : FS) (p : Path) (c : Bytes) : FS :=
  { fs with files := (p, c) :: eraseA p fs.files }

/-- Delete the file at `p`. -/
def FS.removeFile (fs : FS) (p : Path) : FS :=
  { fs with files := eraseA p fs.files }

/-- `Path::exists`: true for a directory or a file at that path. -/
def FS.existsPath (fs : FS) (p : Path) : Bool :=
  memPath p fs.dirs || (fs.lookupFile p).isSome

/-- Oracles resolving every fallible primitive and every external
decoder the embedded code calls.  `openOk p = false` covers both a
missing and an unreadable file when combined with the filesystem;
`writeRes p bs = some n` means the single `Write::write` call reported
`n` bytes written (the Rust contract allows any `n` up to the buffer
length), `none` means it returned an error.  `decodeZip` is the zip
crate reading a byte stream as an archive (entry names and entry
bytes, in order), `decodeXz` the xz2 stream decoder, `decodeTar` the
tar crate listing members as relative paths with contents. -/
structure World where
  openOk : Path → Bool
  createOk : Path → Bool
  copyOk : Path → Bool
  writeRes : Path → Bytes → Option Nat
  removeOk : Path → Bool
  removeDirOk : Path → Bool
  untarOk : Bool
  fetchResult : Except PgEmbedError Bytes
  decodeZip : Bytes → Option (List (String × Bytes))
  decodeXz : Bytes → Option Bytes
  decodeTar : Bytes → Option (List (Path × Bytes))

/-- `File::open`: succeeds iff the file exists and the oracle permits
(permission or I/O failures on an existing file give `none` exactly like
absence). -/
def openFile (w : World) (fs : FS) (p : Path) : Option Bytes :=
  match fs.lookupFile p with
  | none => none
  | some c => if w.openOk p then some c else none

/-- `std::fs::remove_file`: fails when the file is missing or the oracle
denies; on success the file is gone. -/
def removeFilePrim (w : World) (fs : FS) (p : Path) : Option FS :=
  if (fs.lookupFile p).isSome && w.removeOk p then some (fs.removeFile p) else none

/-- Events emitted by the embedded functions, in Rust statement order. -/
inductive Ev where
  | lockAcquire
  | lockRelease
  | checkCached (result : Bool)
  | setStatus (loc : Path) (s : PgAcquisitionStatus)
  | fetch
  | createFile (p : Path)
  | writeFile (p : Path)
  | removeFile (p : Path)
  | tarExtract
deriving DecidableEq, Repr

/-- Filesystem-mutation events. -/
def Ev.isFs : Ev → Bool
  | .createFile _ => true
  | .writeFile _ => true
  | .removeFile _ => true
  | .tarExtract => true
  | _ => false

/-- Result of an embedded filesystem-level function: outcome, final
filesystem, and the trace of events of this call. -/
structure FsOut (α : Type) where
  res : Except PgEmbedError α
  fs : FS
  tr : List Ev

/-- The process-wide `ACQUIRED_PG_BINS` map from `pg_access.rs`. -/
abbrev StatusMap := List (Path × PgAcquisitionStatus)

/-- `HashMap::insert`: replace any entry for the key. -/
def insertStatus (m : StatusMap) (p : Path) (s : PgAcquisitionStatus) : StatusMap :=
  (p, s) :: eraseA p m

/-- The path bundle of `PgAccess` (`pg_access.rs`), fixed at construction. -/
structure PgAccess where
  cache_dir : Path
  database_dir : Path
  pg_ctl_exe : Path
  init_db_exe : Path
  pw_file_path : Path
  zip_file_path : Path
  pg_version_file : Path

/-- `PgAccess::path_exists` (`pg_access.rs` lines 199-205): `Ok(true)`
iff `File::open` succeeds, `Ok(false)` on any open failure; never `Err`. -/
def path_exists (w : World) (fs : FS) (file : Path) : Except PgEmbedError Bool :=
  .ok (openFile w fs file).isSome

/-- `PgAccess::pg_executables_cached` (`pg_access.rs` lines 175-177). -/
def pg_executables_cached (w : World) (fs : FS) (a : PgAccess) : Except PgEmbedError Bool :=
  path_exists w fs a.init_db_exe

/-- `PgAccess::acquisition_status` (`pg_access.rs` lines 210-217): read
the shared map under the lock, defaulting to `Undefined`; the map is
returned as the function leaves it. -/
def acquisition_status (m : StatusMap) (cache_dir : Path) : PgAcquisitionStatus × StatusMap :=
  match lookupA cache_dir m with
  | none => (PgAcquisitionStatus.Undefined, m)
  | some status => (status, m)

/-- `PgAccess::write_pg_zip` (`pg_access.rs` lines 222-235):
`File::create` then a single `Write::write` whose reported count is
discarded, so a short write still yields `Ok(())`. -/
def write_pg_zip (w : World) (fs : FS) (a : PgAccess) (bytes : Bytes) : FsOut Unit :=
  if w.createOk a.zip_file_path then
    let fs1 := fs.writeFile a.zip_file_path []
    match w.writeRes a.zip_file_path bytes with
    | none => ⟨.error (.WriteFileError a.zip_file_path), fs1, [.createFile a.zip_file_path]⟩
    | some n =>
        ⟨.ok (), fs1.writeFile a.zip_file_path (bytes.take n),
          [.createFile a.zip_file_path, .writeFile a.zip_file_path]⟩
  else ⟨.error (.WriteFileError a.zip_file_path), fs, []⟩

/-- `str::ends_with`, by characters (structural, so runs reduce). -/
def strEndsWith (s suffix : String) : Bool :=
  List.isPrefixOf suffix.toList.reverse s.toList.reverse

/-- The scan of the zip entries in `unzip_txz`: first entry whose name
ends in `.txz`. -/
def findTxz : List (String × Bytes) → Option (String × Bytes)
  | [] => none
  | e :: rest => if strEndsWith e.1 ".txz" then some e else findTxz rest

/-- `unzip_txz` (`pg_unpack.rs` lines 19-52): open the outer zip, scan
entries in order, stream the first `.txz`-named entry to
`cache_dir.join(name)`, else `InvalidPgPackage`. -/
def unzip_txz (w : World) (fs : FS) (zip_file_path : Path) (cache_dir : Path) : FsOut Path :=
  match openFile w fs zip_file_path with
  | none => ⟨.error (.ReadFileError zip_file_path), fs, []⟩
  | some bs =>
    match w.decodeZip bs with
    | none => ⟨.error (.UnzipFileError zip_file_path), fs, []⟩
    | some entries =>
      match findTxz entries with
      | none => ⟨.error .InvalidPgPackage, fs, []⟩
      | some e =>
        let txz_path := cache_dir ++ [e.1]
        if w.createOk txz_path then
          let fs1 := fs.writeFile txz_path []
          if w.copyOk txz_path then
            ⟨.ok txz_path, fs1.writeFile txz_path e.2,
              [.createFile txz_path, .writeFile txz_path]⟩
          else ⟨.error (.ReadFileError zip_file_path), fs1, [.createFile txz_path]⟩
        else ⟨.error (.WriteFileError txz_path), fs, []⟩

/-- Index of the last dot in a list of characters. -/
def lastDotIdx (cs : List Char) : Option Nat :=
  ((cs.enum.filter (fun e => e.2 == '.')).getLast?).map (fun e => e.1)

/-- `Path::with_extension` on a single file name: replace what follows
the last dot (a leading dot does not start an extension). -/
def setExtension (name ext : String) : String :=
  match lastDotIdx name.toList with
  | some i => if i = 0 then name ++ "." ++ ext else (name.toList.take i).asString ++ "." ++ ext
  | none => name ++ "." ++ ext

/-- `Path::with_extension` on a full path: rewrite the last component. -/
def withExtension : Path → String → Path
  | [], _ => []
  | [n], ext => [setExtension n ext]
  | c :: c2 :: rest, ext => c :: withExtension (c2 :: rest) ext

/-- `decompress_xz` (`pg_unpack.rs` lines 59-79): open the txz file,
create the `.tar`-suffixed target, stream-decompress into it; any copy
failure (including a non-xz stream) is a `WriteFileError` on the target. -/
def decompress_xz (w : World) (fs : FS) (txz_file_path : Path) : FsOut Path :=
  match openFile w fs txz_file_path with
  | none => ⟨.error (.ReadFileError txz_file_path), fs, []⟩
  | some bs =>
    let target_path := withExtension txz_file_path "tar"
    if w.createOk target_path then
      let fs1 := fs.writeFile target_path []
      match w.decodeXz bs with
      | some inner =>
        if w.copyOk target_path then
          ⟨.ok target_path, fs1.writeFile target_path inner,
            [.createFile target_path, .writeFile target_path]⟩
        else ⟨.error (.WriteFileError target_path), fs1, [.createFile target_path]⟩
      | none => ⟨.error (.WriteFileError target_path), fs1, [.createFile target_path]⟩
    else ⟨.error (.WriteFileError target_path), fs, []⟩

/-- Extraction of all tar members below `cache_dir`, preserving
relative paths and overwriting existing files. -/
def extractAll (cache_dir : Path) (tfiles : List (Path × Bytes)) (fs : FS) : FS :=
  tfiles.foldl (fun acc e => acc.writeFile (cache_dir ++ e.1) e.2) fs

/-- `decompress_tar` (`pg_unpack.rs` lines 86-96): open the tar file and
extract all members into `cache_dir`; extraction failure (including a
non-tar stream) is `UnpackFailure`. -/
def decompress_tar (w : World) (fs : FS) (file_path : Path) (cache_dir : Path) : FsOut Unit :=
  match openFile w fs file_path with
  | none => ⟨.error (.ReadFileError file_path), fs, []⟩
  | some bs =>
    match w.decodeTar bs with
    | some tfiles =>
      if w.untarOk then ⟨.ok (), extractAll cache_dir tfiles fs, [.tarExtract]⟩
      else ⟨.error .UnpackFailure, fs, []⟩
    | none => ⟨.error .UnpackFailure, fs, []⟩

/-- `unpack_postgres` (`pg_unpack.rs` lines 103-116): unzip, decompress,
remove the txz, untar, remove the tar, in that order, failing fast. -/
def unpack_postgres (w : World) (fs : FS) (zip_file_path : Path) (cache_dir : Path) :
    FsOut Unit :=
  match unzip_txz w fs zip_file_path cache_dir with
  | ⟨.error e, fs1, tr1⟩ => ⟨.error e, fs1, tr1⟩
  | ⟨.ok txz_file_path, fs1, tr1⟩ =>
    match decompress_xz w fs1 txz_file_path with
    | ⟨.error e, fs2, tr2⟩ => ⟨.error e, fs2, tr1 ++ tr2⟩
    | ⟨.ok tar_file_path, fs2, tr2⟩ =>
      match removeFilePrim w fs2 txz_file_path with
      | none => ⟨.error (.PgCleanUpFailure txz_file_path), fs2, tr1 ++ tr2⟩
      | some fs3 =>
        match decompress_tar w fs3 tar_file_path cache_dir with
        | ⟨.error e, fs4, tr4⟩ =>
            ⟨.error e, fs4, tr1 ++ tr2 ++ [.removeFile txz_file_path] ++ tr4⟩
        | ⟨.ok _, fs4, tr4⟩ =>
          match removeFilePrim w fs4 tar_file_path with
          | none =>
              ⟨.error (.PgCleanUpFailure tar_file_path), fs4,
                tr1 ++ tr2 ++ [.removeFile txz_file_path] ++ tr4⟩
          | some fs5 =>
              ⟨.ok (), fs5,
                tr1 ++ tr2 ++ [.removeFile txz_file_path] ++ tr4
                  ++ [.removeFile tar_file_path]⟩

/-- Result of `maybe_acquire_postgres`: outcome, final status map,
final filesystem, and the trace. -/
structure AcqOut where
  res : Except PgEmbedError Unit
  map : StatusMap
  fs : FS
  tr : List Ev

/-- `PgAccess::maybe_acquire_postgres` (`pg_access.rs` lines 147-170).
The `MutexGuard` on `ACQUIRED_PG_BINS` is taken on entry and, per Rust
drop semantics, released only when the function returns, at every exit
point; the trace records the release at each return. -/
def maybe_acquire_postgres (w : World) (a : PgAccess) (m : StatusMap) (fs : FS) : AcqOut :=
  if (openFile w fs a.init_db_exe).isSome then
    ⟨.ok (), m, fs, [.lockAcquire, .checkCached true, .lockRelease]⟩
  else
    let m1 := insertStatus m a.cache_dir .InProgress
    let tr0 : List Ev :=
      [.lockAcquire, .checkCached false, .setStatus a.cache_dir .InProgress, .fetch]
    match w.fetchResult with
    | .error e => ⟨.error e, m1, fs, tr0 ++ [.lockRelease]⟩
    | .ok pg_bin_data =>
      match write_pg_zip w fs a pg_bin_data with
      | ⟨.error e, fsw, trw⟩ => ⟨.error e, m1, fsw, tr0 ++ trw ++ [.lockRelease]⟩
      | ⟨.ok _, fsw, trw⟩ =>
        match unpack_postgres w fsw a.zip_file_path a.cache_dir with
        | ⟨.error e, fsu, tru⟩ => ⟨.error e, m1, fsu, tr0 ++ trw ++ tru ++ [.lockRelease]⟩
        | ⟨.ok _, fsu, tru⟩ =>
          match removeFilePrim w fsu a.zip_file_path with
          | none =>
              ⟨.error (.PgCleanUpFailure a.zip_file_path), m1, fsu,
                tr0 ++ trw ++ tru ++ [.lockRelease]⟩
          | some fsr =>
              ⟨.ok (), insertStatus m1 a.cache_dir .Finished, fsr,
                tr0 ++ trw ++ tru
                  ++ [.removeFile a.zip_file_path, .setStatus a.cache_dir .Finished,
                      .lockRelease]⟩

/-- `std::fs::remove_dir_all`: on success everything under the
directory (itself included) is gone. -/
def remove_dir_all (w : World) (fs : FS) (p : Path) : Option FS :=
  if w.removeDirOk p then
    some { files := fs.files.filter (fun e => !(isUnder p e.1)),
           dirs := fs.dirs.filter (fun d => !(isUnder p d)) }
  else none

/-- `PgAccess::purge` (`pg_access.rs` lines 264-272): remove the cache
directory recursively when it exists, succeed without acting otherwise. -/
def purge (w : World) (fs : FS) (cache_dir : Path) : Except PgEmbedError Unit × FS :=
  if fs.existsPath cache_dir then
    match remove_dir_all w fs cache_dir with
    | some fs2 => (.ok (), fs2)
    | none => (.error (.PgCleanUpFailure cache_dir), fs)
  else (.ok (), fs)

/-- A world in which every primitive succeeds, the single write call
writes the whole buffer, and the fetch returns the given bytes.  Used
for concrete runs. -/
def happyWorld (bs : Bytes) : World where
  openOk := fun _ => true
  createOk := fun _ => true
  copyOk := fun _ => true
  writeRes := fun _ bytes => some bytes.length
  removeOk := fun _ => true
  removeDirOk := fun _ => true
  untarOk := true
  fetchResult := .ok bs
  decodeZip := fun _ => none
  decodeXz := fun _ => none
  decodeTar := fun _ => none

/-- A concrete `PgAccess` path bundle, used for concrete runs. -/
def samplePgAccess : PgAccess where
  cache_dir := ["cache"]
  database_dir := ["db"]
  pg_ctl_exe := ["cache", "bin", "pg_ctl"]
  init_db_exe := ["cache", "bin", "initdb"]
  pw_file_path := ["db.pwfile"]
  zip_file_path := ["cache", "linux-13.zip"]
  pg_version_file := ["db", "PG_VERSION"]

/-- A world with a concrete well-formed archive: the fetch returns the
bytes [0], which decode as a zip holding a text entry and the member
`pg.txz` with bytes [1]; those decompress to tar bytes [2]; the tar
holds the two executables under `bin`.  Every primitive succeeds. -/
def sampleWorld : World where
  openOk := fun _ => true
  createOk := fun _ => true
  copyOk := fun _ => true
  writeRes := fun _ bytes => some bytes.length
  removeOk := fun _ => true
  removeDirOk := fun _ => true
  untarOk := true
  fetchResult := .ok [0]
  decodeZip := fun bs => if bs = [0] then some [("doc.txt", [9]), ("pg.txz", [1])] else none
  decodeXz := fun bs => if bs = [1] then some [2] else none
  decodeTar := fun bs =>
    if bs = [2] then some [(["bin", "initdb"], [3]), (["bin", "pg_ctl"], [4])] else none

/-! ## Helper lemmas -/

theorem lookupA_insertStatus_self (m : StatusMap) (p : Path) (s : PgAcquisitionStatus) :
    lookupA p (insertStatus m p s) = some s := by
  simp [insertStatus, lookupA]

theorem isUnder_self (p : Path) : isUnder p p = true := by
  induction p with
  | nil => rfl
  | cons c cs ih => simp [isUnder, ih]

theorem memPath_eq_false (p : Path) (l : List Path) (h : ∀ d ∈ l, d ≠ p) :
    memPath p l = false := by
  induction l with
  | nil => rfl
  | cons d ds ih =>
      have hd : d ≠ p := h d (by simp)
      simp [memPath, hd]
      exact ih (fun x hx => h x (by simp [hx]))

theorem lookupA_eq_none {α : Type} (p : Path) (l : List (Path × α))
    (h : ∀ e ∈ l, e.1 ≠ p) : lookupA p l = none := by
  induction l with
  | nil => rfl
  | cons e es ih =>
      have he : e.1 ≠ p := h e (by simp)
      simp [lookupA, he]
      exact ih (fun x hx => h x (by simp [hx]))

/-! ## Claim theorems -/

/-- Claim C4: the process-operation descriptor is the fixed total table
Initialize maps to (Initializing, Initialized, InitFailure), Start to
(Starting, Started, StartFailure), Stop to (Stopping, Stopped,
StopFailure), covering every operation kind. -/
theorem process_descriptor_table :
    status_entry .InitDb = .Initializing ∧ status_exit .InitDb = .Initialized ∧
      error_type .InitDb = .PgInitFailure ∧
    status_entry .StartDb = .Starting ∧ status_exit .StartDb = .Started ∧
      error_type .StartDb = .PgStartFailure ∧
    status_entry .StopDb = .Stopping ∧ status_exit .StopDb = .Stopped ∧
      error_type .StopDb = .PgStopFailure := by
  decide

/-- Claim C8: acquisition_status is a pure read of the shared map: it
returns Undefined when the map has no entry for the location, the stored
status otherwise, and the map after the call equals the map before. -/
theorem acquisition_status_pure_read (m : StatusMap) (p : Path) :
    (lookupA p m = none → (acquisition_status m p).1 = .Undefined) ∧
    (∀ s, lookupA p m = some s → (acquisition_status m p).1 = s) ∧
    (acquisition_status m p).2 = m := by
  unfold acquisition_status
  cases h : lookupA p m <;> simp [h]

/-- Witness for C8 at concrete inputs: an empty map reads Undefined, a
map holding Finished for the location reads Finished, the map unchanged. -/
theorem acquisition_status_pure_read_witness :
    (acquisition_status [] ["c"]).1 = .Undefined ∧
    (acquisition_status [(["c"], .Finished)] ["c"]).1 = .Finished ∧
    (acquisition_status [(["c"], .Finished)] ["c"]).2 =
      [(["c"], .Finished)] := by
  refine ⟨(acquisition_status_pure_read [] ["c"]).1 rfl,
    (acquisition_status_pure_read [(["c"], .Finished)] ["c"]).2.1
      PgAcquisitionStatus.Finished rfl,
    (acquisition_status_pure_read [(["c"], .Finished)] ["c"]).2.2⟩

/-- Claim C10: purge on a missing cache directory succeeds without
touching the filesystem, and after any successful purge a second purge
(under any oracle) succeeds and changes nothing. -/
theorem purge_idempotent_total (w : World) (fs : FS) (cache_dir : Path) :
    (fs.existsPath cache_dir = false → purge w fs cache_dir = (.ok (), fs)) ∧
    (∀ fs2, purge w fs cache_dir = (.ok (), fs2) →
      ∀ w2, purge w2 fs2 cache_dir = (.ok (), fs2)) := by
  constructor
  · intro h
    simp [purge, h]
  · intro fs2 h w2
    by_cases hex : fs.existsPath cache_dir = true
    · by_cases hok : w.removeDirOk cache_dir = true
      · have hfs2 : fs2 = FS.mk (fs.files.filter fun e => !(isUnder cache_dir e.1)) (fs.dirs.filter fun d => !(isUnder cache_dir d)) := by
          simp [purge, remove_dir_all, hex, hok] at h
          exact h.symm
        have hmem : memPath cache_dir fs2.dirs = false := by
          rw [hfs2]
          apply memPath_eq_false
          intro d hd heq
          have hf := List.of_mem_filter hd
          rw [heq] at hf
          simp [isUnder_self] at hf
        have hlook : lookupA cache_dir fs2.files = none := by
          rw [hfs2]
          apply lookupA_eq_none
          intro e he heq
          have hf := List.of_mem_filter he
          rw [heq] at hf
          simp [isUnder_self] at hf
        have hex2 : fs2.existsPath cache_dir = false := by
          simp [FS.existsPath, FS.lookupFile, hmem, hlook]
        simp [purge, hex2]
      · exfalso
        simp [purge, remove_dir_all, hex, hok] at h
    · have hex0 : fs.existsPath cache_dir = false := by simpa using hex
      have hfs2 : fs2 = fs := by
        simp [purge, hex0] at h
        exact h.symm
      subst hfs2
      simp [purge, hex0]

/-- Witness for C10: purging a filesystem without the cache directory
succeeds unchanged, and a second purge after a successful purge of an
existing directory succeeds unchanged. -/
theorem purge_idempotent_total_witness :
    purge { happyWorld [] with removeDirOk := fun _ => false } (FS.mk [] []) ["c"] = (.ok (), FS.mk [] []) ∧
    purge (happyWorld []) (FS.mk [] []) ["d"] = (.ok (), FS.mk [] []) := by
  constructor
  · exact (purge_idempotent_total (happyWorld []) (FS.mk [] [["c"]]) ["c"]).2 (FS.mk [] [])
      (by rfl) { happyWorld [] with removeDirOk := fun _ => false }
  · exact (purge_idempotent_total (happyWorld []) (FS.mk [] []) ["d"]).1 rfl

/-- On the slow path (cached check false) the trace starts with the
lock acquisition, the failed check, the InProgress mark and the fetch,
in that order. -/
theorem maybe_acquire_slow_head (w : World) (a : PgAccess) (m : StatusMap) (fs : FS)
    (h : (openFile w fs a.init_db_exe).isSome = false) :
    ∃ rest, (maybe_acquire_postgres w a m fs).tr =
      Ev.lockAcquire :: Ev.checkCached false :: Ev.setStatus a.cache_dir .InProgress ::
        Ev.fetch :: rest := by
  cases hf : w.fetchResult with
  | error e => exact ⟨_, by simp [maybe_acquire_postgres, h, hf]; rfl⟩
  | ok bs =>
    rcases hw : write_pg_zip w fs a bs with ⟨resw, fsw, trw⟩
    cases resw with
    | error e => exact ⟨_, by simp [maybe_acquire_postgres, h, hf, hw]; rfl⟩
    | ok u =>
      rcases hu : unpack_postgres w fsw a.zip_file_path a.cache_dir with ⟨resu, fsu, tru⟩
      cases resu with
      | error e => exact ⟨_, by simp [maybe_acquire_postgres, h, hf, hw, hu]; rfl⟩
      | ok v =>
        cases hr : removeFilePrim w fsu a.zip_file_path with
        | none => exact ⟨_, by simp [maybe_acquire_postgres, h, hf, hw, hu, hr]; rfl⟩
        | some fsr => exact ⟨_, by simp [maybe_acquire_postgres, h, hf, hw, hu, hr]; rfl⟩

/-- Claim C3: on the fast path (the marker-executable check succeeds)
maybe_acquire_postgres returns success, leaves both the shared status
map and the filesystem exactly as they were, performs no fetch, and
creates or writes no file. -/
theorem maybe_acquire_fast_path (w : World) (a : PgAccess) (m : StatusMap) (fs : FS)
    (h : pg_executables_cached w fs a = .ok true) :
    maybe_acquire_postgres w a m fs =
      AcqOut.mk (.ok ()) m fs [.lockAcquire, .checkCached true, .lockRelease] ∧
    Ev.fetch ∉ (maybe_acquire_postgres w a m fs).tr ∧
    (∀ p, Ev.createFile p ∉ (maybe_acquire_postgres w a m fs).tr ∧
          Ev.writeFile p ∉ (maybe_acquire_postgres w a m fs).tr) ∧
    (maybe_acquire_postgres w a m fs).map = m ∧
    (maybe_acquire_postgres w a m fs).fs = fs := by
  have hb : (openFile w fs a.init_db_exe).isSome = true := by
    simpa [pg_executables_cached, path_exists] using h
  refine ⟨?_, ?_, ?_, ?_, ?_⟩ <;> simp [maybe_acquire_postgres, hb]

/-- Witness for C3: with the marker file present and readable, the run
returns success and changes nothing. -/
theorem maybe_acquire_fast_path_witness :
    maybe_acquire_postgres (happyWorld []) samplePgAccess []
        (FS.mk [(["cache", "bin", "initdb"], ([] : Bytes))] []) =
      AcqOut.mk (.ok ()) [] (FS.mk [(["cache", "bin", "initdb"], ([] : Bytes))] [])
        [.lockAcquire, .checkCached true, .lockRelease] :=
  (maybe_acquire_fast_path (happyWorld []) samplePgAccess []
    (FS.mk [(["cache", "bin", "initdb"], ([] : Bytes))] []) (by rfl)).1

/-- Claim C9: pg_executables_cached (via path_exists) is total over its
error type: it always returns Ok, a missing marker and an existing but
unreadable marker both yield Ok false, and in that state the slow
acquisition path is taken (a fetch is attempted). -/
theorem pg_executables_cached_total (w : World) (a : PgAccess) (m : StatusMap) (fs : FS) :
    (∃ b, pg_executables_cached w fs a = .ok b) ∧
    (∀ fsA fsB c, w.openOk a.init_db_exe = false →
      fsA.lookupFile a.init_db_exe = none →
      fsB.lookupFile a.init_db_exe = some c →
      pg_executables_cached w fsA a = .ok false ∧
        pg_executables_cached w fsB a = .ok false) ∧
    (pg_executables_cached w fs a = .ok false →
      Ev.fetch ∈ (maybe_acquire_postgres w a m fs).tr) := by
  refine ⟨⟨(openFile w fs a.init_db_exe).isSome, rfl⟩, ?_, ?_⟩
  · intro fsA fsB c hopen hA hB
    constructor
    · simp [pg_executables_cached, path_exists, openFile, hA]
    · simp [pg_executables_cached, path_exists, openFile, hB, hopen]
  · intro h
    have hb : (openFile w fs a.init_db_exe).isSome = false := by
      simpa [pg_executables_cached, path_exists] using h
    obtain ⟨rest, htr⟩ := maybe_acquire_slow_head w a m fs hb
    rw [htr]
    simp

/-- Witness for C9: a world denying open on the marker, one filesystem
missing it and one holding it, both read as not cached, and the run in
that state attempts the fetch. -/
theorem pg_executables_cached_total_witness :
    pg_executables_cached { happyWorld [] with openOk := fun _ => false } (FS.mk [] []) samplePgAccess = .ok false ∧
    pg_executables_cached { happyWorld [] with openOk := fun _ => false } (FS.mk [(["cache", "bin", "initdb"], ([] : Bytes))] []) samplePgAccess = .ok false ∧
    Ev.fetch ∈ (maybe_acquire_postgres (happyWorld []) samplePgAccess [] (FS.mk [] [])).tr := by
  refine ⟨?_, ?_, ?_⟩
  · exact ((pg_executables_cached_total { happyWorld [] with openOk := fun _ => false }
      samplePgAccess [] (FS.mk [] [])).2.1 (FS.mk [] [])
      (FS.mk [(["cache", "bin", "initdb"], ([] : Bytes))] []) ([] : Bytes)
      rfl rfl rfl).1
  · exact ((pg_executables_cached_total { happyWorld [] with openOk := fun _ => false }
      samplePgAccess [] (FS.mk [] [])).2.1 (FS.mk [] [])
      (FS.mk [(["cache", "bin", "initdb"], ([] : Bytes))] []) ([] : Bytes)
      rfl rfl rfl).2
  · exact (pg_executables_cached_total (happyWorld []) samplePgAccess [] (FS.mk [] [])).2.2 rfl

/-- Claim C7 (code bug): `write_pg_zip` issues a single `Write::write`
and discards the reported count, so a run in which the write call
reports 0 bytes written still returns success while the file on disk
does not contain the given bytes. -/
theorem write_pg_zip_short_write :
    (write_pg_zip { happyWorld [] with writeRes := fun _ _ => some 0 } (FS.mk [] []) samplePgAccess [7]).res = .ok () ∧
    FS.lookupFile (write_pg_zip { happyWorld [] with writeRes := fun _ _ => some 0 } (FS.mk [] []) samplePgAccess [7]).fs samplePgAccess.zip_file_path ≠ some [7] := by
  constructor
  · rfl
  · intro hcon
    rw [show FS.lookupFile (write_pg_zip { happyWorld [] with writeRes := fun _ _ => some 0 } (FS.mk [] []) samplePgAccess [7]).fs samplePgAccess.zip_file_path = some [] from rfl] at hcon
    simp at hcon

/-- Every event emitted by write_pg_zip is a filesystem mutation. -/
theorem write_pg_zip_tr_fs (w : World) (fs : FS) (a : PgAccess) (bytes : Bytes) :
    ((write_pg_zip w fs a bytes).tr).all Ev.isFs = true := by
  unfold write_pg_zip
  repeat' split
  all_goals rfl

/-- Every event emitted by unzip_txz is a filesystem mutation. -/
theorem unzip_txz_tr_fs (w : World) (fs : FS) (z c : Path) :
    ((unzip_txz w fs z c).tr).all Ev.isFs = true := by
  unfold unzip_txz
  repeat' split
  all_goals first | rfl | (dsimp only; (repeat' split); all_goals rfl)

/-- Every event emitted by decompress_xz is a filesystem mutation. -/
theorem decompress_xz_tr_fs (w : World) (fs : FS) (p : Path) :
    ((decompress_xz w fs p).tr).all Ev.isFs = true := by
  unfold decompress_xz
  repeat' split
  all_goals first | rfl | (dsimp only; (repeat' split); all_goals rfl)

/-- Every event emitted by decompress_tar is a filesystem mutation. -/
theorem decompress_tar_tr_fs (w : World) (fs : FS) (p c : Path) :
    ((decompress_tar w fs p c).tr).all Ev.isFs = true := by
  unfold decompress_tar
  repeat' split
  all_goals rfl

/-- Every event emitted by unpack_postgres is a filesystem mutation. -/
theorem unpack_postgres_tr_fs (w : World) (fs : FS) (z c : Path) :
    ((unpack_postgres w fs z c).tr).all Ev.isFs = true := by
  have h1 := unzip_txz_tr_fs w fs z c
  rcases hz : unzip_txz w fs z c with ⟨rz, fs1, tr1⟩
  rw [hz] at h1
  replace h1 : tr1.all Ev.isFs = true := h1
  cases rz with
  | error e => simp [unpack_postgres, hz, h1]
  | ok txzp =>
    have h2 := decompress_xz_tr_fs w fs1 txzp
    rcases hx : decompress_xz w fs1 txzp with ⟨rx, fs2, tr2⟩
    rw [hx] at h2
    replace h2 : tr2.all Ev.isFs = true := h2
    cases rx with
    | error e => simp [unpack_postgres, hz, hx, h1, h2]
    | ok tarp =>
      cases hr : removeFilePrim w fs2 txzp with
      | none => simp [unpack_postgres, hz, hx, hr, h1, h2]
      | some fs3 =>
        have h3 := decompress_tar_tr_fs w fs3 tarp c
        rcases ht : decompress_tar w fs3 tarp c with ⟨rt, fs4, tr4⟩
        rw [ht] at h3
        replace h3 : tr4.all Ev.isFs = true := h3
        cases rt with
        | error e => simp [unpack_postgres, hz, hx, hr, ht, h1, h2, h3, Ev.isFs]
        | ok u =>
          cases hr2 : removeFilePrim w fs4 tarp with
          | none => simp [unpack_postgres, hz, hx, hr, ht, hr2, h1, h2, h3, Ev.isFs]
          | some fs5 => simp [unpack_postgres, hz, hx, hr, ht, hr2, h1, h2, h3, Ev.isFs]

/-- A list of filesystem-mutation events contains no lock, status or
fetch events. -/
theorem all_fs_members (l : List Ev) (h : l.all Ev.isFs = true) :
    (∀ p s, Ev.setStatus p s ∉ l) ∧ Ev.lockAcquire ∉ l ∧ Ev.lockRelease ∉ l ∧
      Ev.fetch ∉ l ∧ (∀ b, Ev.checkCached b ∉ l) := by
  refine ⟨fun p s hm => ?_, fun hm => ?_, fun hm => ?_, fun hm => ?_, fun b hm => ?_⟩ <;>
    · have hx := List.all_eq_true.1 h _ hm
      simp [Ev.isFs] at hx

/-- Characterization of the slow path: the run either fails, leaving
the status entry at InProgress, or succeeds, leaving it Finished; in
both cases the trace is the fixed four-event head (lock acquire,
failed check, InProgress mark, fetch) followed by filesystem events
and the closing bookkeeping. -/
theorem maybe_acquire_slow_cases (w : World) (a : PgAccess) (m : StatusMap) (fs : FS)
    (h : (openFile w fs a.init_db_exe).isSome = false) :
    (∃ err fsx trx, trx.all Ev.isFs = true ∧
      maybe_acquire_postgres w a m fs =
        AcqOut.mk (.error err) (insertStatus m a.cache_dir .InProgress) fsx
          (Ev.lockAcquire :: Ev.checkCached false :: Ev.setStatus a.cache_dir .InProgress ::
            Ev.fetch :: (trx ++ [Ev.lockRelease]))) ∨
    (∃ fsx trx, trx.all Ev.isFs = true ∧
      maybe_acquire_postgres w a m fs =
        AcqOut.mk (.ok ())
          (insertStatus (insertStatus m a.cache_dir .InProgress) a.cache_dir .Finished) fsx
          (Ev.lockAcquire :: Ev.checkCached false :: Ev.setStatus a.cache_dir .InProgress ::
            Ev.fetch :: (trx ++ [Ev.removeFile a.zip_file_path,
              Ev.setStatus a.cache_dir .Finished, Ev.lockRelease]))) := by
  cases hf : w.fetchResult with
  | error e0 =>
    left
    exact ⟨e0, fs, [], rfl, by simp [maybe_acquire_postgres, h, hf]⟩
  | ok bs =>
    have hwAll := write_pg_zip_tr_fs w fs a bs
    rcases hw : write_pg_zip w fs a bs with ⟨resw, fsw, trw⟩
    rw [hw] at hwAll
    replace hwAll : trw.all Ev.isFs = true := hwAll
    cases resw with
    | error e0 =>
      left
      exact ⟨e0, fsw, trw, hwAll, by simp [maybe_acquire_postgres, h, hf, hw]⟩
    | ok u =>
      have huAll := unpack_postgres_tr_fs w fsw a.zip_file_path a.cache_dir
      rcases hu : unpack_postgres w fsw a.zip_file_path a.cache_dir with ⟨resu, fsu, tru⟩
      rw [hu] at huAll
      replace huAll : tru.all Ev.isFs = true := huAll
      have hca : (trw ++ tru).all Ev.isFs = true := by
        simp only [List.all_append, hwAll, huAll, Bool.and_self]
      cases resu with
      | error e0 =>
        left
        exact ⟨e0, fsu, trw ++ tru, hca, by simp [maybe_acquire_postgres, h, hf, hw, hu]⟩
      | ok v =>
        cases hr : removeFilePrim w fsu a.zip_file_path with
        | none =>
          left
          exact ⟨.PgCleanUpFailure a.zip_file_path, fsu, trw ++ tru, hca,
            by simp [maybe_acquire_postgres, h, hf, hw, hu, hr]⟩
        | some fsr =>
          right
          exact ⟨fsr, trw ++ tru, hca,
            by simp [maybe_acquire_postgres, h, hf, hw, hu, hr]⟩

/-- Claim C2: on every slow-path run the status entry is set to
InProgress before any filesystem mutation (the first three trace
events are the lock acquisition, the failed cached check and the
InProgress mark, none a filesystem mutation), the final entry for the
location is Finished exactly when the whole run succeeded and stays
InProgress when any step failed, no Undefined status is ever stored,
and a Finished mark is emitted only on success. -/
theorem maybe_acquire_status_discipline (w : World) (a : PgAccess) (m : StatusMap) (fs : FS)
    (h : pg_executables_cached w fs a = .ok false) :
    (List.take 3 (maybe_acquire_postgres w a m fs).tr =
      [Ev.lockAcquire, Ev.checkCached false, Ev.setStatus a.cache_dir .InProgress] ∧
     ∀ e ∈ List.take 3 (maybe_acquire_postgres w a m fs).tr, e.isFs = false) ∧
    ((maybe_acquire_postgres w a m fs).res = .ok () →
      lookupA a.cache_dir (maybe_acquire_postgres w a m fs).map = some .Finished) ∧
    (∀ err, (maybe_acquire_postgres w a m fs).res = .error err →
      lookupA a.cache_dir (maybe_acquire_postgres w a m fs).map = some .InProgress) ∧
    (∀ s, Ev.setStatus a.cache_dir s ∈ (maybe_acquire_postgres w a m fs).tr →
      s ≠ .Undefined) ∧
    (Ev.setStatus a.cache_dir .Finished ∈ (maybe_acquire_postgres w a m fs).tr →
      (maybe_acquire_postgres w a m fs).res = .ok ()) := by
  have hb : (openFile w fs a.init_db_exe).isSome = false := by
    simpa [pg_executables_cached, path_exists] using h
  rcases maybe_acquire_slow_cases w a m fs hb with
    ⟨err, fsx, trx, hall, heq⟩ | ⟨fsx, trx, hall, heq⟩
  · obtain ⟨hset, hlA, hlR, hF, hC⟩ := all_fs_members trx hall
    rw [heq]
    refine ⟨⟨rfl, ?_⟩, ?_, ?_, ?_, ?_⟩
    · intro e he
      simp at he
      rcases he with h1 | h1 | h1 <;> simp [h1, Ev.isFs]
    · intro hok
      simp at hok
    · intro err2 _
      exact lookupA_insertStatus_self m a.cache_dir .InProgress
    · intro s hs
      simp at hs
      rcases hs with h1 | h1
      · simp [h1]
      · exact absurd h1 (hset a.cache_dir s)
    · intro hfin
      simp at hfin
      exact absurd hfin (hset a.cache_dir .Finished)
  · obtain ⟨hset, hlA, hlR, hF, hC⟩ := all_fs_members trx hall
    rw [heq]
    refine ⟨⟨rfl, ?_⟩, ?_, ?_, ?_, ?_⟩
    · intro e he
      simp at he
      rcases he with h1 | h1 | h1 <;> simp [h1, Ev.isFs]
    · intro _
      exact lookupA_insertStatus_self _ a.cache_dir .Finished
    · intro err2 hcon
      simp at hcon
    · intro s hs
      simp at hs
      rcases hs with h1 | h1 | h1
      · simp [h1]
      · exact absurd h1 (hset a.cache_dir s)
      · simp [h1]
    · intro _
      rfl

/-- Witness for C2: a concrete slow-path run over a well-formed
archive marks the location InProgress as the third event and finishes
with the entry at Finished. -/
theorem maybe_acquire_status_discipline_witness :
    List.take 3 (maybe_acquire_postgres sampleWorld samplePgAccess [] (FS.mk [] [])).tr =
      [Ev.lockAcquire, Ev.checkCached false, Ev.setStatus ["cache"] .InProgress] ∧
    lookupA ["cache"] (maybe_acquire_postgres sampleWorld samplePgAccess [] (FS.mk [] [])).map =
      some .Finished := by
  have h := maybe_acquire_status_discipline sampleWorld samplePgAccess [] (FS.mk [] []) rfl
  exact ⟨h.1.1, h.2.1 (by rfl)⟩

/-- Claim C1 counterexample: in a concrete slow-path run that fetches,
unpacks and finishes successfully, the fetch event occurs and no lock
release precedes it in the trace — the lock is not released before the
fetch is performed. -/
theorem maybe_acquire_lock_not_released_before_fetch :
    Ev.lockRelease ∉
      ((maybe_acquire_postgres sampleWorld samplePgAccess [] (FS.mk [] [])).tr.takeWhile
        (fun e => !(e == Ev.fetch))) ∧
    Ev.fetch ∈ (maybe_acquire_postgres sampleWorld samplePgAccess [] (FS.mk [] [])).tr := by
  decide

/-- Claim C1 (amended): the process-wide lock guarding the status map
is held for the whole of maybe_acquire_postgres: the trace opens with
the lock acquisition, closes with its release, and no lock event
occurs in between; on the slow path the fetch happens strictly between
the two, so mutual exclusion covers the full fetch+unpack duration and
a concurrent caller cannot run while an acquisition is in flight. -/
theorem maybe_acquire_lock_held (w : World) (a : PgAccess) (m : StatusMap) (fs : FS) :
    ∃ mid, (maybe_acquire_postgres w a m fs).tr = Ev.lockAcquire :: (mid ++ [Ev.lockRelease]) ∧
      Ev.lockAcquire ∉ mid ∧ Ev.lockRelease ∉ mid ∧
      ((openFile w fs a.init_db_exe).isSome = false → Ev.fetch ∈ mid) := by
  by_cases hb : (openFile w fs a.init_db_exe).isSome = true
  · refine ⟨[Ev.checkCached true], ?_, by simp, by simp, ?_⟩
    · simp [maybe_acquire_postgres, hb]
    · intro hcon
      rw [hb] at hcon
      simp at hcon
  · have hb2 : (openFile w fs a.init_db_exe).isSome = false := by simpa using hb
    rcases maybe_acquire_slow_cases w a m fs hb2 with
      ⟨err, fsx, trx, hall, heq⟩ | ⟨fsx, trx, hall, heq⟩
    · obtain ⟨hset, hlA, hlR, hF, hC⟩ := all_fs_members trx hall
      refine ⟨Ev.checkCached false :: Ev.setStatus a.cache_dir .InProgress :: Ev.fetch :: trx,
        ?_, ?_, ?_, fun _ => by simp⟩
      · rw [heq]
        simp
      · simp [hlA]
      · simp [hlR]
    · obtain ⟨hset, hlA, hlR, hF, hC⟩ := all_fs_members trx hall
      refine ⟨Ev.checkCached false :: Ev.setStatus a.cache_dir .InProgress :: Ev.fetch ::
          (trx ++ [Ev.removeFile a.zip_file_path, Ev.setStatus a.cache_dir .Finished]),
        ?_, ?_, ?_, fun _ => by simp⟩
      · rw [heq]
        simp
      · simp [hlA]
      · simp [hlR]

/-- Witness for C1 (amended) at a concrete slow-path run: the lock is
acquired first, released last, never touched in between, and the fetch
happens in between. -/
theorem maybe_acquire_lock_held_witness :
    ∃ mid, (maybe_acquire_postgres sampleWorld samplePgAccess [] (FS.mk [] [])).tr =
        Ev.lockAcquire :: (mid ++ [Ev.lockRelease]) ∧
      Ev.lockAcquire ∉ mid ∧ Ev.lockRelease ∉ mid ∧ Ev.fetch ∈ mid := by
  obtain ⟨mid, h1, h2, h3, h4⟩ :=
    maybe_acquire_lock_held sampleWorld samplePgAccess [] (FS.mk [] [])
  exact ⟨mid, h1, h2, h3, h4 rfl⟩

/-- The entry scan finds nothing when no name ends in `.txz`. -/
theorem findTxz_eq_none (entries : List (String × Bytes))
    (h : ∀ e ∈ entries, strEndsWith e.1 ".txz" = false) : findTxz entries = none := by
  induction entries with
  | nil => rfl
  | cons e es ih =>
      have he := h e (by simp)
      simp [findTxz, he]
      exact ih fun x hx => h x (by simp [hx])

/-- The entry scan returns the first match in scan order. -/
theorem findTxz_first (pre : List (String × Bytes)) (e : String × Bytes)
    (rest : List (String × Bytes))
    (hpre : ∀ x ∈ pre, strEndsWith x.1 ".txz" = false)
    (he : strEndsWith e.1 ".txz" = true) :
    findTxz (pre ++ e :: rest) = some e := by
  induction pre with
  | nil => simp [findTxz, he]
  | cons x xs ih =>
      have hx := hpre x (by simp)
      simp [findTxz, hx]
      exact ih fun y hy => hpre y (by simp [hy])

/-- A found entry has the `.txz` suffix. -/
theorem findTxz_ends (l : List (String × Bytes)) (e : String × Bytes)
    (h : findTxz l = some e) : strEndsWith e.1 ".txz" = true := by
  induction l with
  | nil => exact absurd h (by simp [findTxz])
  | cons x xs ih =>
      by_cases hx : strEndsWith x.1 ".txz" = true
      · simp [findTxz, hx] at h
        rw [← h]
        exact hx
      · simp [findTxz, hx] at h
        exact ih h

/-- Claim C5: when the outer archive opens and parses but no entry
name ends in `.txz`, unzip_txz (and hence unpack_postgres) fails with
the InvalidPgPackage error kind without touching the filesystem; when
matching entries exist, the first one in scan order is the one
streamed to the destination directory. -/
theorem unzip_txz_invalid_package (w : World) (fs : FS) (zipP cacheP : Path)
    (bs : Bytes) (entries : List (String × Bytes))
    (hopen : openFile w fs zipP = some bs)
    (hdec : w.decodeZip bs = some entries) :
    ((∀ e ∈ entries, strEndsWith e.1 ".txz" = false) →
      (unzip_txz w fs zipP cacheP).res = .error .InvalidPgPackage ∧
      (unpack_postgres w fs zipP cacheP).res = .error .InvalidPgPackage ∧
      (unzip_txz w fs zipP cacheP).fs = fs) ∧
    (∀ pre e rest, entries = pre ++ e :: rest →
      (∀ x ∈ pre, strEndsWith x.1 ".txz" = false) →
      strEndsWith e.1 ".txz" = true →
      w.createOk (cacheP ++ [e.1]) = true →
      w.copyOk (cacheP ++ [e.1]) = true →
      (unzip_txz w fs zipP cacheP).res = .ok (cacheP ++ [e.1]) ∧
      FS.lookupFile (unzip_txz w fs zipP cacheP).fs (cacheP ++ [e.1]) = some e.2) := by
  constructor
  · intro hnone
    have hfind : findTxz entries = none := findTxz_eq_none entries hnone
    have hz : unzip_txz w fs zipP cacheP = ⟨.error .InvalidPgPackage, fs, []⟩ := by
      simp [unzip_txz, hopen, hdec, hfind]
    refine ⟨?_, ?_, ?_⟩
    · rw [hz]
    · simp [unpack_postgres, hz]
    · rw [hz]
  · intro pre e rest hsplit hpre he hcr hcp
    have hfind : findTxz entries = some e := by
      rw [hsplit]
      exact findTxz_first pre e rest hpre he
    constructor
    · simp [unzip_txz, hopen, hdec, hfind, hcr, hcp]
    · simp [unzip_txz, hopen, hdec, hfind, hcr, hcp, FS.lookupFile, FS.writeFile, lookupA]

/-- Witness for C5: a concrete archive with no txz member fails with
InvalidPgPackage, and the sample archive streams the first (and only)
txz member. -/
theorem unzip_txz_invalid_package_witness :
    (unzip_txz { sampleWorld with decodeZip := fun bs => if bs = [0] then some [("a.txt", [5])] else none } (FS.mk [(["cache", "linux-13.zip"], [0])] []) ["cache", "linux-13.zip"] ["cache"]).res = .error .InvalidPgPackage ∧
    (unzip_txz sampleWorld (FS.mk [(["cache", "linux-13.zip"], [0])] []) ["cache", "linux-13.zip"] ["cache"]).res = .ok ["cache", "pg.txz"] ∧
    FS.lookupFile (unzip_txz sampleWorld (FS.mk [(["cache", "linux-13.zip"], [0])] []) ["cache", "linux-13.zip"] ["cache"]).fs ["cache", "pg.txz"] = some [1] := by
  refine ⟨?_, ?_, ?_⟩
  · exact ((unzip_txz_invalid_package
      { sampleWorld with decodeZip := fun bs => if bs = [0] then some [("a.txt", [5])] else none }
      (FS.mk [(["cache", "linux-13.zip"], [0])] []) ["cache", "linux-13.zip"] ["cache"]
      [0] [("a.txt", [5])] rfl rfl).1 (by decide)).1
  · exact ((unzip_txz_invalid_package sampleWorld
      (FS.mk [(["cache", "linux-13.zip"], [0])] []) ["cache", "linux-13.zip"] ["cache"]
      [0] [("doc.txt", [9]), ("pg.txz", [1])] rfl rfl).2
      [("doc.txt", [9])] ("pg.txz", [1]) [] rfl (by decide) (by decide) rfl rfl).1
  · exact ((unzip_txz_invalid_package sampleWorld
      (FS.mk [(["cache", "linux-13.zip"], [0])] []) ["cache", "linux-13.zip"] ["cache"]
      [0] [("doc.txt", [9]), ("pg.txz", [1])] rfl rfl).2
      [("doc.txt", [9])] ("pg.txz", [1]) [] rfl (by decide) (by decide) rfl rfl).2

theorem lookupA_eraseA_self {α : Type} (p : Path) (l : List (Path × α)) :
    lookupA p (eraseA p l) = none := by
  induction l with
  | nil => rfl
  | cons e es ih => by_cases h : e.1 = p <;> simp [eraseA, h, lookupA, ih]

theorem lookupA_eraseA_ne {α : Type} (p q : Path) (l : List (Path × α)) (h : q ≠ p) :
    lookupA q (eraseA p l) = lookupA q l := by
  induction l with
  | nil => rfl
  | cons e es ih =>
      by_cases h1 : e.1 = p
      · have h2 : ¬ (e.1 = q) := fun hq => h (by rw [← hq, h1])
        have h3 : ¬ (p = q) := fun hq => h hq.symm
        simp [eraseA, lookupA, h1, h2, h3, ih]
      · by_cases h2 : e.1 = q <;> simp [eraseA, lookupA, h1, h2, h, ih]

theorem lookupFile_writeFile_self (fs : FS) (p : Path) (c : Bytes) :
    (fs.writeFile p c).lookupFile p = some c := by
  simp [FS.writeFile, FS.lookupFile, lookupA]

theorem lookupFile_writeFile_ne (fs : FS) (p q : Path) (c : Bytes) (h : q ≠ p) :
    (fs.writeFile p c).lookupFile q = fs.lookupFile q := by
  have h2 : ¬ (p = q) := fun hq => h hq.symm
  simp [FS.writeFile, FS.lookupFile, lookupA, h2, lookupA_eraseA_ne p q fs.files h]

theorem lookupFile_removeFile_self (fs : FS) (p : Path) :
    (fs.removeFile p).lookupFile p = none := by
  simp [FS.removeFile, FS.lookupFile, lookupA_eraseA_self]

theorem lookupFile_removeFile_ne (fs : FS) (p q : Path) (h : q ≠ p) :
    (fs.removeFile p).lookupFile q = fs.lookupFile q := by
  simp [FS.removeFile, FS.lookupFile, lookupA_eraseA_ne p q fs.files h]

theorem lookupFile_extractAll_ne (cacheP : Path) (tf : List (Path × Bytes)) (fs : FS)
    (q : Path) (h : ∀ f ∈ tf, cacheP ++ f.1 ≠ q) :
    (extractAll cacheP tf fs).lookupFile q = fs.lookupFile q := by
  induction tf generalizing fs with
  | nil => rfl
  | cons f fsl ih =>
      have h1 : q ≠ cacheP ++ f.1 := fun hq => h f (by simp) hq.symm
      have step : extractAll cacheP (f :: fsl) fs
          = extractAll cacheP fsl (fs.writeFile (cacheP ++ f.1) f.2) := rfl
      rw [step, ih (fs.writeFile (cacheP ++ f.1) f.2) (fun x hx => h x (by simp [hx])),
        lookupFile_writeFile_ne fs (cacheP ++ f.1) q f.2 h1]

theorem lookupFile_extractAll_isSome (cacheP : Path) (tf : List (Path × Bytes)) (fs : FS)
    (q : Path) (h : (fs.lookupFile q).isSome = true) :
    ((extractAll cacheP tf fs).lookupFile q).isSome = true := by
  induction tf generalizing fs with
  | nil => exact h
  | cons f fsl ih =>
      have step : extractAll cacheP (f :: fsl) fs
          = extractAll cacheP fsl (fs.writeFile (cacheP ++ f.1) f.2) := rfl
      rw [step]
      apply ih
      by_cases hq : q = cacheP ++ f.1
      · subst hq
        rw [lookupFile_writeFile_self]
        rfl
      · rw [lookupFile_writeFile_ne fs (cacheP ++ f.1) q f.2 hq]
        exact h

theorem toList_append_str (a b : String) : (a ++ b).toList = a.toList ++ b.toList := by
  cases a
  cases b
  rfl

/-- setExtension always produces a name ending in a dot and the new
extension. -/
theorem setExtension_toList (nm ext : String) :
    ∃ stem : List Char, (setExtension nm ext).toList = stem ++ '.' :: ext.toList := by
  unfold setExtension
  cases h : lastDotIdx nm.toList with
  | none =>
      refine ⟨nm.toList, ?_⟩
      simp only [h]
      rw [toList_append_str, toList_append_str]
      simp
  | some i =>
      by_cases hi : i = 0
      · refine ⟨nm.toList, ?_⟩
        simp only [h]
        rw [if_pos hi, toList_append_str, toList_append_str]
        simp
      · refine ⟨nm.toList.take i, ?_⟩
        simp only [h]
        rw [if_neg hi, toList_append_str, toList_append_str]
        simp
        rfl

/-- Replacing the extension by `tar` changes a `.txz`-suffixed name. -/
theorem setExtension_tar_ne (nm : String) (h : strEndsWith nm ".txz" = true) :
    setExtension nm "tar" ≠ nm := by
  intro heq
  obtain ⟨stem, hs⟩ := setExtension_toList nm "tar"
  rw [heq] at hs
  unfold strEndsWith at h
  rw [hs] at h
  have h2 : (stem ++ '.' :: (String.toList "tar")).reverse
      = 'r' :: 'a' :: 't' :: '.' :: stem.reverse := by
    simp
  rw [h2] at h
  have h3 : (String.toList ".txz").reverse = ['z', 'x', 't', '.'] := rfl
  rw [h3] at h
  simp [List.isPrefixOf] at h

theorem withExtension_last (l : Path) (nm ext : String) :
    withExtension (l ++ [nm]) ext = l ++ [setExtension nm ext] := by
  induction l with
  | nil => rfl
  | cons c cs ih =>
      cases cs with
      | nil => rfl
      | cons d ds =>
          show c :: withExtension ((d :: ds) ++ [nm]) ext = _
          rw [ih]
          rfl

/-- The tar path differs from the txz path it was derived from. -/
theorem tarPath_ne_txzPath (cacheP : Path) (nm : String) (h : strEndsWith nm ".txz" = true) :
    withExtension (cacheP ++ [nm]) "tar" ≠ cacheP ++ [nm] := by
  rw [withExtension_last]
  intro heq
  have h2 : setExtension nm "tar" = nm := by
    simpa using heq
  exact setExtension_tar_ne nm h h2

/-- A successful slow-path acquisition leaves no file at the archive
download path: the zip is deleted before Finished is recorded. -/
theorem maybe_acquire_removes_zip (w : World) (a : PgAccess) (m : StatusMap) (fs : FS)
    (hb : (openFile w fs a.init_db_exe).isSome = false)
    (hok : (maybe_acquire_postgres w a m fs).res = .ok ()) :
    FS.lookupFile (maybe_acquire_postgres w a m fs).fs a.zip_file_path = none := by
  cases hf : w.fetchResult with
  | error e0 =>
      exfalso
      simp [maybe_acquire_postgres, hb, hf] at hok
  | ok bs =>
    rcases hw : write_pg_zip w fs a bs with ⟨resw, fsw, trw⟩
    cases resw with
    | error e0 =>
        exfalso
        simp [maybe_acquire_postgres, hb, hf, hw] at hok
    | ok u =>
      rcases hu : unpack_postgres w fsw a.zip_file_path a.cache_dir with ⟨resu, fsu, tru⟩
      cases resu with
      | error e0 =>
          exfalso
          simp [maybe_acquire_postgres, hb, hf, hw, hu] at hok
      | ok v =>
        cases hr : removeFilePrim w fsu a.zip_file_path with
        | none =>
            exfalso
            simp [maybe_acquire_postgres, hb, hf, hw, hu, hr] at hok
        | some fsr =>
          have hfsr : fsr = fsu.removeFile a.zip_file_path := by
            by_cases hc : ((fsu.lookupFile a.zip_file_path).isSome
                && w.removeOk a.zip_file_path) = true
            · unfold removeFilePrim at hr
              rw [if_pos hc] at hr
              exact (Option.some.inj hr).symm
            · unfold removeFilePrim at hr
              rw [if_neg hc] at hr
              exact absurd hr (by simp)
          have hfinal : (maybe_acquire_postgres w a m fs).fs = fsr := by
            simp [maybe_acquire_postgres, hb, hf, hw, hu, hr]
          rw [hfinal, hfsr]
          exact lookupFile_removeFile_self fsu a.zip_file_path

/-- Claim C6: on a successful unpack_postgres run the trace ends with
removing the txz intermediate, then extracting the tar, then removing
the tar file — so the compressed intermediate is deleted after its
decompression and before extraction, and the tar after extraction —
and neither intermediate remains on disk (provided the extracted tree
does not itself recreate the txz path); and a successful slow-path
maybe_acquire_postgres leaves no file at the archive download path. -/
theorem unpack_postgres_cleanup (w : World) (fs : FS) (zipP cacheP : Path)
    (bs inner : Bytes) (entries : List (String × Bytes)) (e : String × Bytes)
    (tfiles : List (Path × Bytes))
    (hopen : openFile w fs zipP = some bs)
    (hdec : w.decodeZip bs = some entries)
    (hfind : findTxz entries = some e)
    (hxz : w.decodeXz e.2 = some inner)
    (htar : w.decodeTar inner = some tfiles)
    (hnore : ∀ f ∈ tfiles, cacheP ++ f.1 ≠ cacheP ++ [e.1]) :
    ((unpack_postgres w fs zipP cacheP).res = .ok () →
      (∃ pre, (unpack_postgres w fs zipP cacheP).tr =
        pre ++ [Ev.removeFile (cacheP ++ [e.1]), Ev.tarExtract,
          Ev.removeFile (withExtension (cacheP ++ [e.1]) "tar")]) ∧
      FS.lookupFile (unpack_postgres w fs zipP cacheP).fs (cacheP ++ [e.1]) = none ∧
      FS.lookupFile (unpack_postgres w fs zipP cacheP).fs
        (withExtension (cacheP ++ [e.1]) "tar") = none) ∧
    (∀ a m fs2, (openFile w fs2 a.init_db_exe).isSome = false →
      (maybe_acquire_postgres w a m fs2).res = .ok () →
      FS.lookupFile (maybe_acquire_postgres w a m fs2).fs a.zip_file_path = none) := by
  refine ⟨?_, fun a m fs2 hb hok2 => maybe_acquire_removes_zip w a m fs2 hb hok2⟩
  intro hok
  have hend : strEndsWith e.1 ".txz" = true := findTxz_ends entries e hfind
  have hRT : withExtension (cacheP ++ [e.1]) "tar" ≠ cacheP ++ [e.1] :=
    tarPath_ne_txzPath cacheP e.1 hend
  have hTR : cacheP ++ [e.1] ≠ withExtension (cacheP ++ [e.1]) "tar" := fun hx => hRT hx.symm
  by_cases hcr : w.createOk (cacheP ++ [e.1]) = true
  case neg =>
    exfalso
    simp [unpack_postgres, unzip_txz, hopen, hdec, hfind, hcr] at hok
  by_cases hcp : w.copyOk (cacheP ++ [e.1]) = true
  case neg =>
    exfalso
    simp [unpack_postgres, unzip_txz, hopen, hdec, hfind, hcr, hcp] at hok
  obtain ⟨fs1, hz, hl1⟩ : ∃ fs1, unzip_txz w fs zipP cacheP =
      ⟨.ok (cacheP ++ [e.1]), fs1,
        [.createFile (cacheP ++ [e.1]), .writeFile (cacheP ++ [e.1])]⟩ ∧
      fs1.lookupFile (cacheP ++ [e.1]) = some e.2 := by
    refine ⟨(fs.writeFile (cacheP ++ [e.1]) []).writeFile (cacheP ++ [e.1]) e.2, ?_, ?_⟩
    · simp [unzip_txz, hopen, hdec, hfind, hcr, hcp]
    · exact lookupFile_writeFile_self _ _ _
  by_cases ho1 : w.openOk (cacheP ++ [e.1]) = true
  case neg =>
    exfalso
    simp [unpack_postgres, hz, decompress_xz, openFile, hl1, ho1] at hok
  by_cases hct : w.createOk (withExtension (cacheP ++ [e.1]) "tar") = true
  case neg =>
    exfalso
    simp [unpack_postgres, hz, decompress_xz, openFile, hl1, ho1, hct] at hok
  by_cases hcpt : w.copyOk (withExtension (cacheP ++ [e.1]) "tar") = true
  case neg =>
    exfalso
    simp [unpack_postgres, hz, decompress_xz, openFile, hl1, ho1, hct, hxz, hcpt] at hok
  obtain ⟨fs2, hx2, hl2, hl2T⟩ : ∃ fs2, decompress_xz w fs1 (cacheP ++ [e.1]) =
      ⟨.ok (withExtension (cacheP ++ [e.1]) "tar"), fs2,
        [.createFile (withExtension (cacheP ++ [e.1]) "tar"),
         .writeFile (withExtension (cacheP ++ [e.1]) "tar")]⟩ ∧
      fs2.lookupFile (withExtension (cacheP ++ [e.1]) "tar") = some inner ∧
      fs2.lookupFile (cacheP ++ [e.1]) = some e.2 := by
    refine ⟨(fs1.writeFile (withExtension (cacheP ++ [e.1]) "tar") []).writeFile
        (withExtension (cacheP ++ [e.1]) "tar") inner, ?_, ?_, ?_⟩
    · simp [decompress_xz, openFile, hl1, ho1, hct, hxz, hcpt]
    · exact lookupFile_writeFile_self _ _ _
    · rw [lookupFile_writeFile_ne _ _ _ _ hTR, lookupFile_writeFile_ne _ _ _ _ hTR, hl1]
  by_cases hro1 : w.removeOk (cacheP ++ [e.1]) = true
  case neg =>
    exfalso
    simp [unpack_postgres, hz, hx2, removeFilePrim, hl2T, hro1] at hok
  have hrm1 : removeFilePrim w fs2 (cacheP ++ [e.1]) =
      some (fs2.removeFile (cacheP ++ [e.1])) := by
    simp [removeFilePrim, hl2T, hro1]
  have hl3R : (fs2.removeFile (cacheP ++ [e.1])).lookupFile
      (withExtension (cacheP ++ [e.1]) "tar") = some inner := by
    rw [lookupFile_removeFile_ne _ _ _ hRT]
    exact hl2
  by_cases ho2 : w.openOk (withExtension (cacheP ++ [e.1]) "tar") = true
  case neg =>
    exfalso
    simp [unpack_postgres, hz, hx2, hrm1, decompress_tar, openFile, hl3R, ho2] at hok
  by_cases hut : w.untarOk = true
  case neg =>
    exfalso
    simp [unpack_postgres, hz, hx2, hrm1, decompress_tar, openFile, hl3R, ho2, htar, hut] at hok
  have ht2 : decompress_tar w (fs2.removeFile (cacheP ++ [e.1]))
      (withExtension (cacheP ++ [e.1]) "tar") cacheP =
      ⟨.ok (), extractAll cacheP tfiles (fs2.removeFile (cacheP ++ [e.1])), [.tarExtract]⟩ := by
    simp [decompress_tar, openFile, hl3R, ho2, htar, hut]
  have hsome4 : ((extractAll cacheP tfiles (fs2.removeFile (cacheP ++ [e.1]))).lookupFile
      (withExtension (cacheP ++ [e.1]) "tar")).isSome = true := by
    apply lookupFile_extractAll_isSome
    rw [hl3R]
    rfl
  by_cases hro2 : w.removeOk (withExtension (cacheP ++ [e.1]) "tar") = true
  case neg =>
    exfalso
    simp [unpack_postgres, hz, hx2, hrm1, ht2, removeFilePrim, hl2T, hro1, hsome4, hro2] at hok
  have hrm2 : removeFilePrim w (extractAll cacheP tfiles (fs2.removeFile (cacheP ++ [e.1])))
      (withExtension (cacheP ++ [e.1]) "tar") =
      some ((extractAll cacheP tfiles (fs2.removeFile (cacheP ++ [e.1]))).removeFile
        (withExtension (cacheP ++ [e.1]) "tar")) := by
    simp [removeFilePrim, hsome4, hro2]
  have hfs5 : (unpack_postgres w fs zipP cacheP).fs =
      (extractAll cacheP tfiles (fs2.removeFile (cacheP ++ [e.1]))).removeFile
        (withExtension (cacheP ++ [e.1]) "tar") := by
    simp [unpack_postgres, hz, hx2, hrm1, ht2, hrm2]
  refine ⟨⟨[.createFile (cacheP ++ [e.1]), .writeFile (cacheP ++ [e.1]),
      .createFile (withExtension (cacheP ++ [e.1]) "tar"),
      .writeFile (withExtension (cacheP ++ [e.1]) "tar")], ?_⟩, ?_, ?_⟩
  · simp [unpack_postgres, hz, hx2, hrm1, ht2, hrm2]
  · rw [hfs5, lookupFile_removeFile_ne _ _ _ hTR,
      lookupFile_extractAll_ne _ _ _ _ hnore, lookupFile_removeFile_self]
  · rw [hfs5, lookupFile_removeFile_self]

/-- Witness for C6: the concrete successful sample run leaves neither
the txz nor the tar intermediate on disk, and the surrounding
acquisition removes the downloaded zip. -/
theorem unpack_postgres_cleanup_witness :
    FS.lookupFile (unpack_postgres sampleWorld (FS.mk [(["cache", "linux-13.zip"], [0])] []) ["cache", "linux-13.zip"] ["cache"]).fs ["cache", "pg.txz"] = none ∧
    FS.lookupFile (unpack_postgres sampleWorld (FS.mk [(["cache", "linux-13.zip"], [0])] []) ["cache", "linux-13.zip"] ["cache"]).fs (withExtension ["cache", "pg.txz"] "tar") = none ∧
    FS.lookupFile (maybe_acquire_postgres sampleWorld samplePgAccess [] (FS.mk [] [])).fs ["cache", "linux-13.zip"] = none := by
  have h := unpack_postgres_cleanup sampleWorld (FS.mk [(["cache", "linux-13.zip"], [0])] [])
    ["cache", "linux-13.zip"] ["cache"] [0] [2] [("doc.txt", [9]), ("pg.txz", [1])]
    ("pg.txz", [1]) [(["bin", "initdb"], [3]), (["bin", "pg_ctl"], [4])]
    rfl rfl rfl rfl rfl (by decide)
  have h1 := h.1 (by rfl)
  exact ⟨h1.2.1, h1.2.2, h.2 samplePgAccess [] (FS.mk [] []) rfl (by rfl)⟩

end PgEmbed
